import Mathlib

/-!
Shallow embedding of the Stabilizer command server (`src/server.rs`):
the quote-substitution codec (`Request::restore_value`,
`Response::sanitize_value`, `Response::wrap_and_sanitize_value`), the
response constructors, JSON serialization of responses (`json_reply`),
the line-framing accumulator of `Server::poll`, and the attribute
router produced by the `route_request!` macro.

Bytes of the wire stream are modelled as `Char` (every
protocol-relevant byte is ASCII); the newline delimiter is `'\n'`.
Fallible operations that the Rust code `unwrap`s are modelled with
`Option`, where `none` stands for the panic.
-/

namespace Stabilizer

/-- Capacity (in bytes) of the accumulator `Vec<u8, U256>` of `Server`. -/
def capacity : Nat := 256

/-- The quote substitution of `Request::restore_value`: every single
quote becomes a double quote, every other character is kept. -/
def restoreChars (s : List Char) : List Char :=
  s.map fun c => if c = '\'' then '"' else c

/-- The quote substitution of `Response::sanitize_value`: every double
quote becomes a single quote, every other character is kept. -/
def sanitizeChars (s : List Char) : List Char :=
  s.map fun c => if c = '"' then '\'' else c

/-- The transformation of `Response::wrap_and_sanitize_value`: the
double-to-single quote substitution, with one leading and one trailing
single quote added. -/
def wrapSanitizeChars (s : List Char) : List Char :=
  '\'' :: (sanitizeChars s ++ ['\''])

/-- The `AccessRequest` enum. -/
inductive AccessRequest where
  | Read
  | Write
deriving DecidableEq

/-- The `Request` struct: `req`, `attribute`, `value`. -/
structure Request where
  req : AccessRequest
  «attribute» : List Char
  value : List Char
deriving DecidableEq

/-- `Request::restore_value`: rewrite every single quote in the `value`
field to a double quote. -/
def Request.restore_value (r : Request) : Request :=
  { r with value := restoreChars r.value }

/-- The `Response` struct: `code`, `attribute`, `value`. -/
structure Response where
  code : Int
  «attribute» : List Char
  value : List Char
deriving DecidableEq

/-- `Response::sanitize_value` applied to a whole response. -/
def Response.sanitize_value (r : Response) : Response :=
  { r with value := sanitizeChars r.value }

/-- `Response::wrap_and_sanitize_value` applied to a whole response. -/
def Response.wrap_and_sanitize_value (r : Response) : Response :=
  { r with value := wrapSanitizeChars r.value }

/-- `Response::success`: code 200, value sanitized. -/
def Response.success (a v : List Char) : Response :=
  Response.sanitize_value { code := 200, «attribute» := a, value := v }

/-- `Response::error`: code 400, message wrapped and sanitized. -/
def Response.error (a msg : List Char) : Response :=
  Response.wrap_and_sanitize_value { code := 400, «attribute» := a, value := msg }

/-- `Response::custom`: caller-chosen code, empty attribute, message
wrapped and sanitized. -/
def Response.custom (code : Int) (msg : List Char) : Response :=
  Response.wrap_and_sanitize_value { code := code, «attribute» := [], value := msg }

/-- Model of `serde_json_core::ser::to_string` on a `Response`: fields
in declaration order, strings emitted verbatim (the serializer performs
no string escaping, as the comment in `Server::poll` records). -/
def serializeResponse (r : Response) : List Char :=
  "\x7b\"code\":".data ++ (toString r.code).data
    ++ ",\"attribute\":\"".data ++ r.attribute
    ++ "\",\"value\":\"".data ++ r.value ++ "\"\x7d".data

/-- `json_reply`: serialize into a `String<U512>` and append the
delimiter, both `unwrap`ed in the source; `none` models the panic when
the serialization exceeds 512 bytes (or the delimiter no longer fits). -/
def jsonReply (r : Response) : Option (List Char) :=
  let u := serializeResponse r
  if u.length ≤ 512 then
    if u.length + 1 ≤ 512 then some (u ++ ['\n']) else none
  else none

/-- Consume an expected literal from the front of the input, returning
the remainder, or fail. -/
def matchLit : List Char → List Char → Option (List Char)
  | [], s => some s
  | _ :: _, [] => none
  | p :: ps, c :: cs => if p = c then matchLit ps cs else none

/-- Consume a JSON string body up to and including the closing double
quote (the deserializer in use performs no unescaping). -/
def parseStr : List Char → Option (List Char × List Char)
  | [] => none
  | c :: cs =>
    if c = '"' then some ([], cs)
    else
      match parseStr cs with
      | some (w, r) => some (c :: w, r)
      | none => none

/-- Model of `serde_json_core::de::from_slice::<Request>` restricted to
canonical request texts
`\x7b"req":"Read|Write","attribute":"...","value":"..."\x7d`:
any other input is a parse error. -/
def fromSlice (s : List Char) : Option Request := do
  let s1 ← matchLit "\x7b\"req\":\"".data s
  let (req, s2) ←
    match matchLit "Read\"".data s1 with
    | some r => some (AccessRequest.Read, r)
    | none =>
      match matchLit "Write\"".data s1 with
      | some r => some (AccessRequest.Write, r)
      | none => none
  let s3 ← matchLit ",\"attribute\":\"".data s2
  let (a, s4) ← parseStr s3
  let s5 ← matchLit ",\"value\":\"".data s4
  let (v, s6) ← parseStr s5
  let s7 ← matchLit "\x7d".data s6
  if s7 = [] then some { req := req, «attribute» := a, value := v } else none

/-- The `Server` struct: the accumulator buffer and the discard flag. -/
structure Server where
  data : List Char
  discard : Bool
deriving DecidableEq

/-- `Server::new`. -/
def Server.new : Server :=
  { data := [], discard := false }

/-- The `(len, found)` computation of the `recv` closure in
`Server::poll`: `len` counts the bytes up to and including the first
newline of the presented buffer, or the whole buffer when no newline is
present; `found` records whether a newline was seen. -/
def lineLen : List Char → Nat × Bool
  | [] => (0, false)
  | c :: rest =>
    if c = '\n' then (1, true)
    else ((lineLen rest).1 + 1, (lineLen rest).2)

/-- The buffer update of the `recv` closure in `Server::poll`: on
overflow (`data.len() + len >= capacity`) set `discard` and clear the
buffer; otherwise, when not discarding and `len > 0`, append the first
`len` bytes of the presented buffer. -/
def accumulate (s : Server) (buf : List Char) (len : Nat) : Server :=
  if capacity ≤ s.data.length + len then
    { data := [], discard := true }
  else if s.discard = false ∧ 0 < len then
    { data := s.data ++ buf.take len, discard := s.discard }
  else
    s

/-- What `Server::poll` does with a completed line, at the framing
level: either the line was being discarded (an overflow reply is due)
or its accumulated bytes are handed to the codec. -/
inductive Event where
  | overflow
  | line (data : List Char)
deriving DecidableEq

/-- The `if found` block of `Server::poll`, framing level: on discard,
clear the flag and report an overflow; otherwise hand over the
accumulated line.  The buffer is cleared in both cases. -/
def lineDone (s : Server) : Server × Event :=
  if s.discard then
    ({ data := [], discard := false }, Event.overflow)
  else
    ({ data := [], discard := s.discard }, Event.line s.data)

/-- The `while socket.can_recv()` loop of `Server::poll` over one
contiguous run of available bytes: repeated `recv` calls, each consuming
`len` bytes, emitting one event per completed line.  The `fuel`
argument only bounds the number of loop iterations (each iteration
consumes at least one byte, so `buf.length` iterations always suffice);
it makes the recursion structural. -/
def feedChunkAux : Nat → Server → List Char → List Event × Server
  | _, s, [] => ([], s)
  | 0, s, _ :: _ => ([], s)
  | fuel + 1, s, c :: cs =>
    let len := (lineLen (c :: cs)).1
    let s1 := accumulate s (c :: cs) len
    if (lineLen (c :: cs)).2 then
      let rest := feedChunkAux fuel (lineDone s1).1 (List.drop len (c :: cs))
      ((lineDone s1).2 :: rest.1, rest.2)
    else
      feedChunkAux fuel s1 (List.drop len (c :: cs))

/-- The `while socket.can_recv()` loop of `Server::poll` over one
contiguous run of available bytes. -/
def feedChunk (s : Server) (buf : List Char) : List Event × Server :=
  feedChunkAux buf.length s buf

/-- Feeding a sequence of byte chunks (successive availabilities of the
socket, possibly across several `poll` calls) through the accumulator. -/
def feedChunks (s : Server) (cs : List (List Char)) : List Event × Server :=
  match cs with
  | [] => ([], s)
  | c :: rest =>
    let r1 := feedChunk s c
    let r2 := feedChunks r1.2 rest
    (r1.1 ++ r2.1, r2.2)

/-- The delimiter strip `&self.data[..self.data.len() - 1]` of
`Server::poll`; `none` models the panic of slicing with an underflowed
index when the buffer is empty. -/
def stripDelim (data : List Char) : Option (List Char) :=
  if data.length = 0 then none
  else some (data.take (data.length - 1))

/-- The reply produced for one framing event in `Server::poll`: an
overflow reply for a discarded line; otherwise strip the delimiter,
parse, restore the value field and dispatch, or reply with a parse
error.  `none` models a panic. -/
def processEvent (f : Request → Response) : Event → Option (List Char)
  | Event.overflow => jsonReply (Response.custom 520 "command buffer overflow".data)
  | Event.line d => do
    let content ← stripDelim d
    match fromSlice content with
    | some req => jsonReply (f req.restore_value)
    | none => jsonReply (Response.custom 550 "parse error".data)

/-- `Server::poll` over a sequence of available chunks: frame the bytes
into events and produce the replies in order; `none` models a panic
escaping `poll`. -/
def pollChunks (f : Request → Response) (s : Server) (cs : List (List Char)) :
    Option (List (List Char) × Server) :=
  let r := feedChunks s cs
  match r.1.mapM (processEvent f) with
  | some replies => some (replies, r.2)
  | none => none

/-- The completed (delimiter-terminated) lines of a byte stream,
delimiters removed, together with the trailing unterminated remainder. -/
def splitLines : List Char → List (List Char) × List Char
  | [] => ([], [])
  | c :: rest =>
    if c = '\n' then ([] :: (splitLines rest).1, (splitLines rest).2)
    else
      match splitLines rest with
      | (l :: ls, r) => ((c :: l) :: ls, r)
      | ([], r) => ([], c :: r)

/-- The accumulator state reached after the newline-free remainder `r`
of the stream has been fed: the bytes themselves when they fit, the
empty discarding state once they reach capacity. -/
def stateAfter (r : List Char) : Server :=
  if capacity ≤ r.length then { data := [], discard := true }
  else { data := r, discard := false }

/-- The framing event produced for a completed line with content `l`
(delimiter excluded): an overflow when the line's byte count including
its delimiter reaches capacity, otherwise the accumulated line. -/
def lineEvent (l : List Char) : Event :=
  if capacity ≤ l.length + 1 then Event.overflow
  else Event.line (l ++ ['\n'])

/-- Outcome of a registered getter together with the serialization of
the value it returns, as in the `Read` arm of `route_request!`. -/
inductive GetOutcome where
  | fail
  | encodeFail
  | ok (encoded : List Char)

/-- Outcome of decoding a value to the setter's concrete type and
invoking the setter, as in the `Write` arm of `route_request!`. -/
inductive WriteOutcome where
  | decodeFail
  | setFail
  | ok
deriving DecidableEq

/-- The registration table over which `route_request!` expands: readable
attributes with their getters, modifiable attributes with their
decode-and-set actions. -/
structure Registry where
  readable : List (List Char × GetOutcome)
  writable : List (List Char × (List Char → WriteOutcome))

/-- First-match lookup of an attribute name, as the ordered `match` over
string patterns in the expansion of `route_request!`. -/
def lookupAttr {α : Type} : List (List Char × α) → List Char → Option α
  | [], _ => none
  | (k, x) :: rest, name => if k = name then some x else lookupAttr rest name

/-- The dispatch produced by `route_request!`: match the request kind,
then the attribute name against the corresponding registration list,
falling through to an `Unknown attribute` error. -/
def route_request (reg : Registry) (r : Request) : Response :=
  match r.req with
  | AccessRequest.Read =>
    match lookupAttr reg.readable r.attribute with
    | some GetOutcome.fail => Response.error r.attribute "Failed to read attribute".data
    | some GetOutcome.encodeFail =>
      Response.error r.attribute "Failed to encode attribute value".data
    | some (GetOutcome.ok enc) => Response.success r.attribute enc
    | none => Response.error r.attribute "Unknown attribute".data
  | AccessRequest.Write =>
    match lookupAttr reg.writable r.attribute with
    | some w =>
      match w r.value with
      | WriteOutcome.decodeFail => Response.error r.attribute "Failed to decode value".data
      | WriteOutcome.setFail => Response.error r.attribute "Failed to set attribute".data
      | WriteOutcome.ok => Response.success r.attribute r.value
    | none => Response.error r.attribute "Unknown attribute".data


/-- A canonical well-formed request line, used to exercise the reply path
of `Server::poll` on concrete inputs. -/
def reqLine : List Char := "\x7b\"req\":\"Read\",\"attribute\":\"x\",\"value\":\"\"\x7d\n".data

/-- A value long enough that any response carrying it overflows the
512-byte reply buffer of `json_reply`. -/
def bigValue : List Char := List.replicate 550 'a'

/-- A registered decode-and-set action that always succeeds. -/
def wOk : List Char → WriteOutcome := fun _ => WriteOutcome.ok

/-- A registry with one write-only attribute `gain`. -/
def regW : Registry := { readable := [], writable := [("gain".data, wOk)] }

/-- The empty registry: no attribute is registered. -/
def regEmpty : Registry := { readable := [], writable := [] }

/-- A sample decoded request whose value field carries wire-style
single quotes. -/
def sampleReq : Request :=
  { req := AccessRequest.Write, «attribute» := "x".data, value := "a'b".data }


set_option maxRecDepth 1000000

theorem feedChunkAux_nil (n : Nat) (s : Server) : feedChunkAux n s [] = ([], s) := by
  cases n <;> rfl

theorem feedChunkAux_cons (n : Nat) (s : Server) (c : List Char) (h : c ≠ []) :
    feedChunkAux (n + 1) s c =
      (if (lineLen c).2 then
        ((lineDone (accumulate s c (lineLen c).1)).2 ::
            (feedChunkAux n (lineDone (accumulate s c (lineLen c).1)).1
              (List.drop (lineLen c).1 c)).1,
          (feedChunkAux n (lineDone (accumulate s c (lineLen c).1)).1
            (List.drop (lineLen c).1 c)).2)
      else feedChunkAux n (accumulate s c (lineLen c).1) (List.drop (lineLen c).1 c)) := by
  cases c with
  | nil => exact absurd rfl h
  | cons a t => rfl

theorem lineLen_no_newline : ∀ (c : List Char), '\n' ∉ c → lineLen c = (c.length, false) := by
  intro c
  induction c with
  | nil => intro _; rfl
  | cons a t ih =>
    intro h
    have ha : ¬ a = '\n' := fun e => h (by simp [e])
    have ht := ih fun m => h (List.mem_cons_of_mem _ m)
    simp [lineLen, ha, ht]

theorem lineLen_newline : ∀ (c1 : List Char), '\n' ∉ c1 →
    ∀ c2, lineLen (c1 ++ '\n' :: c2) = (c1.length + 1, true) := by
  intro c1
  induction c1 with
  | nil => intro _ c2; simp [lineLen]
  | cons a t ih =>
    intro h c2
    have ha : ¬ a = '\n' := fun e => h (by simp [e])
    have ht := ih (fun m => h (List.mem_cons_of_mem _ m)) c2
    simp [lineLen, ha, ht]

theorem take_line : ∀ (c1 c2 : List Char), (c1 ++ '\n' :: c2).take (c1.length + 1) = c1 ++ ['\n'] := by
  intro c1
  induction c1 with
  | nil => intro c2; simp
  | cons a t ih => intro c2; simp [ih]

theorem drop_line : ∀ (c1 c2 : List Char), (c1 ++ '\n' :: c2).drop (c1.length + 1) = c2 := by
  intro c1
  induction c1 with
  | nil => intro c2; simp
  | cons a t ih => intro c2; simp [ih]

theorem exists_first_newline : ∀ (c : List Char), '\n' ∈ c →
    ∃ c1 c2, c = c1 ++ '\n' :: c2 ∧ '\n' ∉ c1 := by
  intro c
  induction c with
  | nil => intro h; simp at h
  | cons a t ih =>
    intro h
    by_cases ha : a = '\n'
    · exact ⟨[], t, by simp [ha], by simp⟩
    · have ht : '\n' ∈ t := by
        rcases List.mem_cons.mp h with h1 | h2
        · exact absurd h1.symm ha
        · exact h2
      obtain ⟨c1, c2, he, hn⟩ := ih ht
      refine ⟨a :: c1, c2, by simp [he], ?_⟩
      intro m
      rcases List.mem_cons.mp m with h1 | h2
      · exact ha h1.symm
      · exact hn h2

theorem splitLines_no_newline : ∀ (s : List Char), '\n' ∉ s → splitLines s = ([], s) := by
  intro s
  induction s with
  | nil => intro _; rfl
  | cons a t ih =>
    intro h
    have ha : ¬ a = '\n' := fun e => h (by simp [e])
    have ht := ih fun m => h (List.mem_cons_of_mem _ m)
    simp [splitLines, ha, ht]

theorem splitLines_newline : ∀ (a : List Char), '\n' ∉ a →
    ∀ c, splitLines (a ++ '\n' :: c) = (a :: (splitLines c).1, (splitLines c).2) := by
  intro a
  induction a with
  | nil => intro _ c; simp [splitLines]
  | cons x t ih =>
    intro h c
    have hx : ¬ x = '\n' := fun e => h (by simp [e])
    have ht := ih (fun m => h (List.mem_cons_of_mem _ m)) c
    simp [splitLines, hx, ht]

theorem splitLines_snd_no_newline : ∀ (s : List Char), '\n' ∉ (splitLines s).2 := by
  intro s
  induction s with
  | nil => simp [splitLines]
  | cons a t ih =>
    by_cases ha : a = '\n'
    · simpa [splitLines, ha] using ih
    · simp only [splitLines, ha, if_false]
      rcases hst : splitLines t with ⟨ls, r⟩
      rw [hst] at ih
      cases ls with
      | nil =>
        simp only []
        intro m
        rcases List.mem_cons.mp m with h1 | h2
        · exact ha h1.symm
        · exact ih h2
      | cons l ls' => simpa using ih

theorem splitLines_append : ∀ (x y : List Char),
    splitLines (x ++ y) =
      ((splitLines x).1 ++ (splitLines ((splitLines x).2 ++ y)).1,
       (splitLines ((splitLines x).2 ++ y)).2) := by
  intro x
  induction x with
  | nil => intro y; simp [splitLines]
  | cons a t ih =>
    intro y
    by_cases ha : a = '\n'
    · simp [splitLines, ha, ih y]
    · simp only [List.cons_append, splitLines, ha, if_false, List.append_eq]
      rcases hst : splitLines t with ⟨ls, r⟩
      have iht := ih y
      rw [hst] at iht
      simp only [] at iht
      cases ls with
      | cons l ls' =>
        rw [iht]
        simp
      | nil =>
        rw [iht]
        rcases hS : splitLines (r ++ y) with ⟨S1, S2⟩
        simp only [List.nil_append, List.cons_append, splitLines, ha, if_false, List.append_eq, hS]

theorem stateAfter_nil : stateAfter [] = Server.new := rfl

theorem stateAfter_of_ge (r : List Char) (h : capacity ≤ r.length) :
    stateAfter r = { data := [], discard := true } := by
  rw [stateAfter, if_pos h]

theorem stateAfter_of_lt (r : List Char) (h : ¬ capacity ≤ r.length) :
    stateAfter r = { data := r, discard := false } := by
  rw [stateAfter, if_neg h]

theorem lineDone_discard (d : List Char) :
    lineDone { data := d, discard := true } = ({ data := [], discard := false }, Event.overflow) := rfl

theorem lineDone_live (d : List Char) :
    lineDone { data := d, discard := false } = ({ data := [], discard := false }, Event.line d) := rfl

theorem accumulate_discard (c : List Char) (len : Nat) :
    accumulate { data := [], discard := true } c len = { data := [], discard := true } := by
  simp only [accumulate]
  split_ifs <;> simp_all

theorem accumulate_live (r c : List Char) (len : Nat) :
    accumulate { data := r, discard := false } c len =
      if capacity ≤ r.length + len then { data := [], discard := true }
      else if 0 < len then { data := r ++ c.take len, discard := false }
      else { data := r, discard := false } := by
  simp only [accumulate]
  split_ifs <;> simp_all

theorem accumulate_no_newline_state (r c : List Char) (hc : c ≠ []) :
    accumulate (stateAfter r) c c.length = stateAfter (r ++ c) := by
  have hc' : 0 < c.length := List.length_pos.mpr hc
  by_cases h1 : capacity ≤ r.length
  · rw [stateAfter_of_ge r h1, accumulate_discard,
      stateAfter_of_ge (r ++ c) (by rw [List.length_append]; omega)]
  · rw [stateAfter_of_lt r h1, accumulate_live]
    by_cases h2 : capacity ≤ r.length + c.length
    · rw [if_pos h2, stateAfter_of_ge (r ++ c) (by rw [List.length_append]; omega)]
    · rw [if_neg h2, if_pos hc', List.take_length,
        stateAfter_of_lt (r ++ c) (by rw [List.length_append]; omega)]

theorem lineDone_accumulate_state (r c1 c2 : List Char) :
    lineDone (accumulate (stateAfter r) (c1 ++ '\n' :: c2) (c1.length + 1)) =
      (Server.new, lineEvent (r ++ c1)) := by
  by_cases h1 : capacity ≤ r.length
  · rw [stateAfter_of_ge r h1, accumulate_discard, lineDone_discard,
      lineEvent, if_pos (by rw [List.length_append]; omega)]
    rfl
  · rw [stateAfter_of_lt r h1, accumulate_live]
    by_cases h2 : capacity ≤ r.length + (c1.length + 1)
    · rw [if_pos h2, lineDone_discard,
        lineEvent, if_pos (by rw [List.length_append]; omega)]
      rfl
    · rw [if_neg h2, if_pos (by omega), take_line, lineDone_live,
        lineEvent, if_neg (by rw [List.length_append]; omega)]
      simp [Server.new, List.append_assoc]

theorem feedChunkAux_eq : ∀ (n : Nat) (c : List Char), c.length ≤ n →
    ∀ (r : List Char), '\n' ∉ r →
      feedChunkAux n (stateAfter r) c =
        (((splitLines (r ++ c)).1).map lineEvent, stateAfter (splitLines (r ++ c)).2) := by
  intro n
  induction n with
  | zero =>
    intro c hc r hr
    have hc0 : c = [] := List.eq_nil_of_length_eq_zero (Nat.le_zero.mp hc)
    subst hc0
    rw [feedChunkAux_nil, List.append_nil, splitLines_no_newline r hr]
    rfl
  | succ n ih =>
    intro c hc r hr
    by_cases hcne : c = []
    · subst hcne
      rw [feedChunkAux_nil, List.append_nil, splitLines_no_newline r hr]
      rfl
    · rw [feedChunkAux_cons n _ c hcne]
      by_cases hnl : '\n' ∈ c
      · obtain ⟨c1, c2, hceq, hc1⟩ := exists_first_newline c hnl
        rw [hceq] at hc ⊢
        rw [lineLen_newline c1 hc1 c2]
        simp only [if_true]
        rw [lineDone_accumulate_state r c1 c2, drop_line c1 c2]
        have hc2len : c2.length ≤ n := by
          rw [List.length_append, List.length_cons] at hc
          omega
        have hrec := ih c2 hc2len [] (by simp)
        rw [stateAfter_nil] at hrec
        rw [hrec]
        have hsplit : splitLines (r ++ (c1 ++ '\n' :: c2)) =
            ((r ++ c1) :: (splitLines c2).1, (splitLines c2).2) := by
          rw [← List.append_assoc]
          exact splitLines_newline (r ++ c1)
            (by
              intro m
              rcases List.mem_append.mp m with h1 | h2
              · exact hr h1
              · exact hc1 h2) c2
        rw [hsplit]
        simp [List.nil_append]
      · rw [lineLen_no_newline c hnl]
        simp only [Bool.false_eq_true, if_false]
        rw [accumulate_no_newline_state r c hcne, List.drop_length, feedChunkAux_nil,
          splitLines_no_newline (r ++ c)
            (by
              intro m
              rcases List.mem_append.mp m with h1 | h2
              · exact hr h1
              · exact hnl h2)]
        rfl

theorem feedChunk_eq (r c : List Char) (hr : '\n' ∉ r) :
    feedChunk (stateAfter r) c =
      (((splitLines (r ++ c)).1).map lineEvent, stateAfter (splitLines (r ++ c)).2) :=
  feedChunkAux_eq c.length c le_rfl r hr

theorem feedChunks_eq : ∀ (cs : List (List Char)) (r : List Char), '\n' ∉ r →
    feedChunks (stateAfter r) cs =
      (((splitLines (r ++ cs.flatten)).1).map lineEvent,
        stateAfter (splitLines (r ++ cs.flatten)).2) := by
  intro cs
  induction cs with
  | nil =>
    intro r hr
    rw [feedChunks, show ([] : List (List Char)).flatten = [] from rfl,
      List.append_nil, splitLines_no_newline r hr]
    rfl
  | cons c cs ih =>
    intro r hr
    simp only [feedChunks]
    rw [feedChunk_eq r c hr]
    simp only []
    rw [ih (splitLines (r ++ c)).2 (splitLines_snd_no_newline (r ++ c))]
    have hj : r ++ (c :: cs).flatten = (r ++ c) ++ cs.flatten := by
      rw [show (c :: cs).flatten = c ++ cs.flatten from rfl, List.append_assoc]
    rw [hj, splitLines_append (r ++ c) cs.flatten]
    simp [List.map_append]

theorem feedChunks_new (cs : List (List Char)) :
    feedChunks Server.new cs =
      (((splitLines cs.flatten).1).map lineEvent, stateAfter (splitLines cs.flatten).2) := by
  have h := feedChunks_eq cs [] (by simp)
  rw [stateAfter_nil] at h
  simpa using h

theorem feedChunk_new (c : List Char) :
    feedChunk Server.new c =
      (((splitLines c).1).map lineEvent, stateAfter (splitLines c).2) := by
  have h := feedChunk_eq [] c (by simp)
  rw [stateAfter_nil] at h
  simpa using h

theorem splitLines_single (l : List Char) (hl : '\n' ∉ l) :
    splitLines (l ++ ['\n']) = ([l], []) := by
  have h := splitLines_newline l hl []
  simpa [splitLines] using h

theorem sanitize_restore : ∀ (v : List Char), '"' ∉ v →
    sanitizeChars (restoreChars v) = v := by
  intro v
  induction v with
  | nil => intro _; rfl
  | cons c t ih =>
    intro h
    have hc : ¬ c = '"' := fun e => h (by simp [e])
    have ht := ih fun m => h (List.mem_cons_of_mem _ m)
    have e1 : sanitizeChars (restoreChars (c :: t)) =
        (if (if c = '\'' then '"' else c) = '"' then '\''
          else (if c = '\'' then '"' else c)) :: sanitizeChars (restoreChars t) := rfl
    rw [e1, ht]
    by_cases hq : c = '\'' <;> simp [hq, hc]

theorem restore_sanitize : ∀ (v : List Char), '\'' ∉ v →
    restoreChars (sanitizeChars v) = v := by
  intro v
  induction v with
  | nil => intro _; rfl
  | cons c t ih =>
    intro h
    have hc : ¬ c = '\'' := fun e => h (by simp [e])
    have ht := ih fun m => h (List.mem_cons_of_mem _ m)
    have e1 : restoreChars (sanitizeChars (c :: t)) =
        (if (if c = '"' then '\'' else c) = '\'' then '"'
          else (if c = '"' then '\'' else c)) :: restoreChars (sanitizeChars t) := rfl
    rw [e1, ht]
    by_cases hq : c = '"' <;> simp [hq, hc]

theorem stripDelim_append (l : List Char) : stripDelim (l ++ ['\n']) = some l := by
  rw [stripDelim, if_neg (by simp)]
  simp [List.length_append, List.take_left]

theorem mapM_single (g : Event → Option (List Char)) (e : Event) :
    List.mapM g [e] = (g e).map (fun b => [b]) := by
  cases hg : g e <;> simp [List.mapM, List.mapM.loop, hg]

/-- Claim C1 (counterexample): the encode-then-decode quote round trip is
not the identity on every mixed-quote string: the two-character value
consisting of a single quote then a double quote comes back as two
double quotes. -/
theorem C1_counterexample :
    sanitizeChars ['\'', '"'] = ['\'', '\''] ∧
    restoreChars (sanitizeChars ['\'', '"']) = ['"', '"'] ∧
    ¬ restoreChars (sanitizeChars ['\'', '"']) = ['\'', '"'] := by decide

/-- Claim C1 (amended): for a value containing no single-quote character
(double quotes arbitrary), the encode-side substitution of
`Response::sanitize_value` followed by the decode-side substitution of
`Request::restore_value` recovers the original string exactly. -/
theorem C1_amended_roundtrip (v : List Char) (h : '\'' ∉ v) :
    restoreChars (sanitizeChars v) = v :=
  restore_sanitize v h

/-- Claim C1 (amended) at a concrete quote-bearing input. -/
theorem C1_witness :
    restoreChars (sanitizeChars ['"', 'a', '"']) = ['"', 'a', '"'] :=
  C1_amended_roundtrip ['"', 'a', '"'] (by decide)

/-- Claim C3 (counterexample): a concrete `Response` whose serialization
exceeds 512 bytes makes `Server::poll` panic (modelled as `none`)
rather than return normally with the connection usable. -/
theorem C3_counterexample :
    512 < (serializeResponse (Response.custom 0 bigValue)).length ∧
    pollChunks (fun _ => Response.custom 0 bigValue) Server.new [reqLine] = none := by
  constructor
  · decide
  · decide

/-- Claim C3 (amended): when a `Response`'s JSON serialization exceeds the
512-byte reply capacity, encoding fails with an overflow, and the
failure IS fatal: `json_reply` unwraps it, so the panic propagates past
`Server::poll` instead of being recovered. -/
theorem C3_amended_panic (r : Response) (h : 512 < (serializeResponse r).length) :
    jsonReply r = none ∧
    pollChunks (fun _ => r) Server.new [reqLine] = none := by
  have h1 : jsonReply r = none := by
    simp only [jsonReply]
    rw [if_neg (by omega)]
  refine ⟨h1, ?_⟩
  have h2 : feedChunks Server.new [reqLine] = ([Event.line reqLine], Server.new) := by decide
  have h3 : processEvent (fun _ => r) (Event.line reqLine) = jsonReply r := rfl
  simp only [pollChunks, h2]
  rw [mapM_single, h3, h1]
  rfl

/-- Claim C3 (amended) at a concrete oversized response. -/
theorem C3_witness :
    jsonReply (Response.custom 0 bigValue) = none ∧
    pollChunks (fun _ => Response.custom 0 bigValue) Server.new [reqLine] = none :=
  C3_amended_panic (Response.custom 0 bigValue) (by decide)

/-- Claim C4: when no completed line's byte count reaches the 256-byte
capacity, the events the accumulator produces for a byte stream are the
same whether the stream arrives as one chunk or split into arbitrarily
many chunks. -/
theorem C4_chunking_invariance (cs : List (List Char))
    (h : ∀ l ∈ (splitLines cs.flatten).1, l.length < capacity) :
    (feedChunks Server.new cs).1 = (feedChunk Server.new cs.flatten).1 := by
  rw [feedChunks_new, feedChunk_new]

/-- Claim C4 at a concrete two-chunk split of a two-line stream. -/
theorem C4_witness :
    (feedChunks Server.new [['h', 'i'], ['\n', 'y', 'o', '\n']]).1 =
      (feedChunk Server.new (List.flatten [['h', 'i'], ['\n', 'y', 'o', '\n']])).1 :=
  C4_chunking_invariance [['h', 'i'], ['\n', 'y', 'o', '\n']] (by decide)

/-- Claim C2: a logical line whose byte count reaches or exceeds the
256-byte capacity produces exactly one overflow framing event (mapped
to the code-520 reply, with no decode attempt), the accumulator is
empty and non-discarding immediately afterwards, and a following
well-formed line is framed normally, under any chunking. -/
theorem C2_overflow_reply (l m : List Char) (cs : List (List Char))
    (hl : '\n' ∉ l) (hlen : capacity ≤ l.length)
    (hm : '\n' ∉ m) (hmlen : m.length + 1 < capacity)
    (hcs : cs.flatten = l ++ '\n' :: (m ++ ['\n'])) :
    feedChunk Server.new (l ++ ['\n']) = ([Event.overflow], Server.new) ∧
    (feedChunks Server.new cs).1 = [Event.overflow, Event.line (m ++ ['\n'])] ∧
    (∀ f : Request → Response, processEvent f Event.overflow =
      jsonReply (Response.custom 520 "command buffer overflow".data)) ∧
    (Response.custom 520 "command buffer overflow".data).code = 520 := by
  refine ⟨?_, ?_, fun _ => rfl, rfl⟩
  · rw [feedChunk_new, splitLines_single l hl]
    simp only [List.map_cons, List.map_nil]
    rw [lineEvent, if_pos (by omega), stateAfter_nil]
  · rw [feedChunks_new, hcs, splitLines_newline l hl (m ++ ['\n']), splitLines_single m hm]
    simp only [List.map_cons, List.map_nil]
    rw [lineEvent, if_pos (by omega), lineEvent, if_neg (by omega)]

/-- Claim C2 at a concrete 256-byte line followed by a short line. -/
theorem C2_witness :
    feedChunk Server.new (List.replicate 256 'x' ++ ['\n']) = ([Event.overflow], Server.new) ∧
    (feedChunks Server.new
        [List.replicate 256 'x' ++ '\n' :: ("ok".data ++ ['\n'])]).1 =
      [Event.overflow, Event.line ("ok".data ++ ['\n'])] := by
  have h := C2_overflow_reply (List.replicate 256 'x') "ok".data
    [List.replicate 256 'x' ++ '\n' :: ("ok".data ++ ['\n'])]
    (by decide) (by decide) (by decide) (by decide) (by simp)
  exact ⟨h.1, h.2.1⟩

/-- Claim C5: a completed non-discarded line is handed over with its
trailing delimiter stripped, is JSON-decoded into the Request shape,
has every single quote of its `value` rewritten to a double quote
before dispatch, and decodes to a parse error when malformed. -/
theorem C5_decode_pipeline (f : Request → Response) (l : List Char)
    (hl : '\n' ∉ l) (hlen : l.length + 1 < capacity) :
    (feedChunk Server.new (l ++ ['\n'])).1 = [Event.line (l ++ ['\n'])] ∧
    processEvent f (Event.line (l ++ ['\n'])) =
      (match fromSlice l with
       | some req => jsonReply (f req.restore_value)
       | none => jsonReply (Response.custom 550 "parse error".data)) ∧
    fromSlice "\x7b\"req\":\"Write\",\"attribute\":\"x\",\"value\":\"a'b\"\x7d".data =
      some sampleReq ∧
    (Request.restore_value sampleReq).value = "a\"b".data := by
  refine ⟨?_, ?_, by decide, by decide⟩
  · rw [feedChunk_new, splitLines_single l hl]
    simp only [List.map_cons, List.map_nil]
    rw [lineEvent, if_neg (by omega)]
  · simp only [processEvent]
    rw [stripDelim_append]
    rfl

/-- Claim C5 at a concrete line. -/
theorem C5_witness :
    (feedChunk Server.new ("hello".data ++ ['\n'])).1 = [Event.line ("hello".data ++ ['\n'])] :=
  (C5_decode_pipeline (fun _ => Response.custom 0 []) "hello".data (by decide) (by decide)).1

/-- Claim C6: `success` produces code 200 with double quotes of the value
rewritten to single quotes; `error` and `custom` apply the same rewrite
and wrap the value in single quotes; a Write request for the
unregistered attribute `nope` yields exactly the claimed wire reply. -/
theorem C6_constructors (reg : Registry) (v : List Char)
    (hnope : lookupAttr reg.writable "nope".data = none) :
    (∀ a w, Response.success a w = { code := 200, «attribute» := a, value := sanitizeChars w }) ∧
    (∀ a msg, Response.error a msg =
      { code := 400, «attribute» := a, value := '\'' :: (sanitizeChars msg ++ ['\'']) }) ∧
    (∀ c msg, Response.custom c msg =
      { code := c, «attribute» := [], value := '\'' :: (sanitizeChars msg ++ ['\'']) }) ∧
    serializeResponse (route_request reg
        { req := AccessRequest.Write, «attribute» := "nope".data, value := v }) =
      "\x7b\"code\":400,\"attribute\":\"nope\",\"value\":\"'Unknown attribute'\"\x7d".data := by
  refine ⟨fun _ _ => rfl, fun _ _ => rfl, fun _ _ => rfl, ?_⟩
  simp only [route_request]
  rw [hnope]
  show serializeResponse (Response.error "nope".data "Unknown attribute".data) =
    "\x7b\"code\":400,\"attribute\":\"nope\",\"value\":\"'Unknown attribute'\"\x7d".data
  decide

/-- Claim C6 at the empty registry. -/
theorem C6_witness :
    serializeResponse (route_request regEmpty
        { req := AccessRequest.Write, «attribute» := "nope".data, value := "1.5".data }) =
      "\x7b\"code\":400,\"attribute\":\"nope\",\"value\":\"'Unknown attribute'\"\x7d".data :=
  (C6_constructors regEmpty "1.5".data rfl).2.2.2

/-- Claim C7: a Write to a registered attribute whose decode and setter
succeed is answered with a code-200 reply echoing the original wire
value exactly, given that wire values carry no literal double quote. -/
theorem C7_write_success_echo (reg : Registry) (a v : List Char)
    (w : List Char → WriteOutcome)
    (hw : lookupAttr reg.writable a = some w)
    (hok : w (restoreChars v) = WriteOutcome.ok)
    (hv : '"' ∉ v) :
    route_request reg (Request.restore_value
        { req := AccessRequest.Write, «attribute» := a, value := v }) =
      { code := 200, «attribute» := a, value := v } := by
  simp only [Request.restore_value, route_request]
  rw [hw]
  simp only []
  rw [hok]
  simp only [Response.success, Response.sanitize_value]
  rw [sanitize_restore v hv]

/-- Claim C7 at a concrete registry and quoted value. -/
theorem C7_witness :
    route_request regW (Request.restore_value
        { req := AccessRequest.Write, «attribute» := "gain".data,
          value := "\x7b'f':1\x7d".data }) =
      { code := 200, «attribute» := "gain".data, value := "\x7b'f':1\x7d".data } :=
  C7_write_success_echo regW "gain".data "\x7b'f':1\x7d".data wOk rfl rfl (by decide)

/-- Claim C8: an empty line (a lone delimiter on a non-discarding
accumulator) completes, fails to decode, and is answered with exactly
one code-550 parse-error reply; the delimiter strip never underflows on
any nonempty buffer. -/
theorem C8_empty_line_no_crash (f : Request → Response) :
    pollChunks f Server.new [['\n']] =
      some ([serializeResponse (Response.custom 550 "parse error".data) ++ ['\n']],
        { data := [], discard := false }) ∧
    ∀ d : List Char, d ≠ [] → (stripDelim d).isSome = true := by
  refine ⟨rfl, ?_⟩
  intro d hd
  rw [stripDelim, if_neg (fun e => hd (List.eq_nil_of_length_eq_zero e))]
  rfl

/-- Claim C8 at a concrete dispatch function. -/
theorem C8_witness :
    pollChunks (fun _ => Response.custom 0 []) Server.new [['\n']] =
      some ([serializeResponse (Response.custom 550 "parse error".data) ++ ['\n']],
        { data := [], discard := false }) ∧
    (stripDelim ['\n']).isSome = true :=
  ⟨(C8_empty_line_no_crash (fun _ => Response.custom 0 [])).1,
   (C8_empty_line_no_crash (fun _ => Response.custom 0 [])).2 ['\n'] (by decide)⟩

/-- Claim C9: a Read request for an attribute registered with a setter only
receives the same `Unknown attribute` error (code 400) as a Read for a
wholly unregistered attribute name. -/
theorem C9_read_setter_only (reg : Registry) (a b v v2 : List Char)
    (w : List Char → WriteOutcome)
    (hwa : lookupAttr reg.writable a = some w)
    (hra : lookupAttr reg.readable a = none)
    (hrb : lookupAttr reg.readable b = none)
    (hwb : lookupAttr reg.writable b = none) :
    route_request reg { req := AccessRequest.Read, «attribute» := a, value := v } =
      Response.error a "Unknown attribute".data ∧
    route_request reg { req := AccessRequest.Read, «attribute» := b, value := v2 } =
      Response.error b "Unknown attribute".data ∧
    (route_request reg { req := AccessRequest.Read, «attribute» := a, value := v }).code =
      (route_request reg { req := AccessRequest.Read, «attribute» := b, value := v2 }).code ∧
    (route_request reg { req := AccessRequest.Read, «attribute» := a, value := v }).value =
      (route_request reg { req := AccessRequest.Read, «attribute» := b, value := v2 }).value := by
  have e1 : route_request reg { req := AccessRequest.Read, «attribute» := a, value := v } =
      Response.error a "Unknown attribute".data := by
    simp only [route_request]
    rw [hra]
  have e2 : route_request reg { req := AccessRequest.Read, «attribute» := b, value := v2 } =
      Response.error b "Unknown attribute".data := by
    simp only [route_request]
    rw [hrb]
  refine ⟨e1, e2, ?_, ?_⟩
  · rw [e1, e2]
    rfl
  · rw [e1, e2]
    rfl

/-- Claim C9 at the write-only registry `regW`. -/
theorem C9_witness :
    route_request regW { req := AccessRequest.Read, «attribute» := "gain".data, value := [] } =
      Response.error "gain".data "Unknown attribute".data ∧
    route_request regW { req := AccessRequest.Read, «attribute» := "nope".data, value := [] } =
      Response.error "nope".data "Unknown attribute".data :=
  ⟨(C9_read_setter_only regW "gain".data "nope".data [] [] wOk rfl rfl rfl rfl).1,
   (C9_read_setter_only regW "gain".data "nope".data [] [] wOk rfl rfl rfl rfl).2.1⟩

/-- Claim C10: the accumulator buffer's length stays strictly below the
256-byte capacity after any input, and one step of the buffer update
preserves that strict bound, so the guarded append cannot fail. -/
theorem C10_buffer_invariant :
    (∀ cs : List (List Char), (feedChunks Server.new cs).2.data.length < capacity) ∧
    (∀ (s : Server) (buf : List Char) (len : Nat),
      s.data.length < capacity → (accumulate s buf len).data.length < capacity) := by
  constructor
  · intro cs
    rw [feedChunks_new]
    simp only []
    by_cases h : capacity ≤ (splitLines cs.flatten).2.length
    · rw [stateAfter_of_ge _ h]
      decide
    · rw [stateAfter_of_lt _ h]
      show (splitLines cs.flatten).2.length < capacity
      omega
  · intro s buf len h
    rw [accumulate]
    split_ifs with h1 h2
    · decide
    · simp only [List.length_append]
      have h3 : (buf.take len).length ≤ len := by
        rw [List.length_take]
        exact Nat.min_le_left _ _
      omega
    · exact h

/-- Claim C10 at a concrete chunk sequence and step. -/
theorem C10_witness :
    (feedChunks Server.new [['a'], "bc\n".data]).2.data.length < capacity ∧
    (accumulate Server.new ['a'] 1).data.length < capacity :=
  ⟨C10_buffer_invariant.1 [['a'], "bc\n".data],
   C10_buffer_invariant.2 Server.new ['a'] 1 (by decide)⟩

end Stabilizer
